import Mathlib

/-!
Verification development for the Sc2Harvester A3C training engine
(src/a3c_agent.py and src/main.py).

The Python source is shallowly embedded below.  Machine floats are
modelled by exact rationals, numpy arrays by lists, the TensorFlow
estimator and the pysc2 action table by function parameters, the
per-worker XML action log by a list of episode records.  Every
definition follows the corresponding lines of the source; line numbers
are cited in the doc comments.
-/

/-! ## Module constants (a3c_agent.py lines 19-37) -/

def A3C_SCREEN_SIZE_X : Nat := 32

def A3C_SCREEN_SIZE_Y : Nat := 32

/-- DISCOUNT_FACTOR = 0.99 (line 23). -/
def DISCOUNT_FACTOR : ℚ := 99 / 100

/-- EXPLORATION_RATE = 0.2 (line 24). -/
def EXPLORATION_RATE : ℚ := 2 / 10

/-- LEARNING_RATE = 10e-3 (line 25). -/
def LEARNING_RATE : ℚ := 10 / 1000

/-- EPSILON = 0.05 (line 26). -/
def EPSILON : ℚ := 5 / 100

def NUM_BATCHES : Nat := 20

/-- MAX_STEPS_TOTAL = 10 * 10**6 (line 30). -/
def MAX_STEPS_TOTAL : Nat := 10 * 10 ^ 6

/-- DETAILED_LOGS = 10 (line 36): the retention constant K. -/
def DETAILED_LOGS : Nat := 10

/-! ## Data model

A transition is one tuple appended to `self.replay_states`
(lines 301-306): `(screen_input, non_spatial_input, obs.reward,
collected_minerals, collected_vespene, obs.last())`.  The two network
input arrays are opaque to the training engine, so they are modelled by
`Nat` tokens; the estimator receives them unchanged. -/

structure Transition where
  screen : Nat
  non_spatial_features : Nat
  reward : ℚ
  collected_minerals : Int
  collected_vespene : Int
  is_last : Bool
deriving DecidableEq

/-- One tuple appended to `self.replay_actions` (line 307):
`(action_id, action_target, list(valid_actions), random_action,
random_position)`. -/
structure ReplayAction where
  action_id : Nat
  action_target : Nat × Nat
  valid_actions : List Nat
  random_action : Bool
  random_position : Bool
deriving DecidableEq

/-- The two per-worker replay buffers (lines 142-143). -/
structure AgentBuffers where
  replay_states : List Transition
  replay_actions : List ReplayAction
deriving DecidableEq

/-- One chunk of the feed dictionaries built in the update loop
(lines 425-432).  A one-hot row of `spatial_action_selected` is encoded
by its hot flattened index (`none` when the row is all zeros), and a
one-hot row of `non_spatial_action_selected` by the chosen action id;
`valid_non_spatial_actions` rows are kept as the id lists they mark. -/
structure Batch where
  screen : List Nat
  non_spatial_features : List Nat
  R : List ℚ
  has_spatial_action : List Bool
  spatial_action_selected : List (Option Nat)
  valid_non_spatial_actions : List (List Nat)
  non_spatial_action_selected : List Nat
  learning_rate : ℚ
deriving DecidableEq

/-- The external estimator (the TensorFlow graph): a value head queried
on a single state and a training call on one batch returning
`(policy_loss, value_loss)` (lines 345-349 and 433). -/
structure A3CEstimator where
  value : Nat → Nat → ℚ
  trainStep : Batch → ℚ × ℚ

/-! ## Return computation (update, lines 340-375) -/

/-- Lines 340-349: `R = 0` when the final buffered transition is
terminal, otherwise the value head evaluated on the final state. -/
def bootstrapR (value : Nat → Nat → ℚ) (replay_states : List Transition) : ℚ :=
  match replay_states.getLast? with
  | none => 0
  | some t => if t.is_last then 0 else value t.screen t.non_spatial_features

/-- The running recurrence of lines 373-374 over the tail of the
reversed reward list: each output is
`reward + discount_factor * previous output`. -/
def cumulatedRewardsAux (discount_factor : ℚ) (prev : ℚ) : List ℚ → List ℚ
  | [] => []
  | r :: rs => (r + discount_factor * prev) :: cumulatedRewardsAux discount_factor (r + discount_factor * prev) rs

/-- Lines 351-374: the `cumulated_rewards` array, indexed like the
reversed buffer.  Element 0 is `R` (line 353); element `i > 0` is the
reward stored at reversed index `i` plus `discount_factor` times
element `i - 1` (line 374). -/
def cumulatedRewards (discount_factor R : ℚ) : List ℚ → List ℚ
  | [] => []
  | _ :: rs => R :: cumulatedRewardsAux discount_factor R rs

/-- Lines 352-354 and 375: the `undiscounted_rewards` array.  Element 0
is `R` (line 354); element `i > 0` is the reward at reversed index `i`. -/
def undiscountedRewards (R : ℚ) : List ℚ → List ℚ
  | [] => []
  | _ :: rs => R :: rs

/-! ## Batch splitting (update, lines 410-418) -/

/-- Section sizes produced by `np.array_split` on a length `len` array
split into `n` sections: the first `len % n` sections have
`len / n + 1` elements, the remaining ones `len / n`. -/
def arraySplitSizes (len n : Nat) : List Nat :=
  (List.range n).map (fun i => if i < len % n then len / n + 1 else len / n)

/-- Cuts a list into consecutive pieces of the given sizes. -/
def splitBySizes {α : Type} : List Nat → List α → List (List α)
  | [], _ => []
  | s :: ss, xs => xs.take s :: splitBySizes ss (xs.drop s)

/-- The embedding of `np.array_split(xs, n)` (lines 412-418). -/
def array_split {α : Type} (xs : List α) (n : Nat) : List (List α) :=
  splitBySizes (arraySplitSizes xs.length n) xs

/-! ## Target arrays (update, lines 351-391) -/

/-- Line 390: the flattened one-hot index written into
`spatial_action_selected` for a stored target pair, namely
`action_target[1] * A3C_SCREEN_SIZE_Y + action_target[0]`. -/
def encodeSpatialIndex (action_target : Nat × Nat) : Nat :=
  action_target.2 * A3C_SCREEN_SIZE_Y + action_target.1

/-- All per-transition arrays filled by the loop of lines 368-391 from
the reversed buffers.  `hasScreenArg` is the external pysc2 table fact
of whether the function with a given id takes a `screen` argument
(lines 386-388).  The loop indexes both reversed lists with the same
counter, so the two list arguments are traversed pointwise. -/
structure UpdateTargets where
  screen_states : List Nat
  non_spatial_feature_states : List Nat
  cumulated_rewards : List ℚ
  undiscounted_rewards : List ℚ
  has_spatial_action : List Bool
  spatial_action_selected : List (Option Nat)
  valid_non_spatial_action : List (List Nat)
  non_spatial_action_selected : List Nat
deriving DecidableEq

def buildTargets (hasScreenArg : Nat → Bool) (R : ℚ)
    (rev_states : List Transition) (rev_actions : List ReplayAction) : UpdateTargets :=
  { screen_states := rev_states.map (·.screen)
    non_spatial_feature_states := rev_states.map (·.non_spatial_features)
    cumulated_rewards := cumulatedRewards DISCOUNT_FACTOR R (rev_states.map (·.reward))
    undiscounted_rewards := undiscountedRewards R (rev_states.map (·.reward))
    has_spatial_action := rev_actions.map (fun a => hasScreenArg a.action_id)
    spatial_action_selected := rev_actions.map (fun a =>
      if hasScreenArg a.action_id then some (encodeSpatialIndex a.action_target) else none)
    valid_non_spatial_action := rev_actions.map (·.valid_actions)
    non_spatial_action_selected := rev_actions.map (·.action_id) }

/-! ## The update method (lines 322-443) -/

structure UpdateResult where
  replay_states : List Transition
  replay_actions : List ReplayAction
  total_rewards : ℚ
  policy_loss : ℚ
  value_loss : ℚ
  batches : List Batch
  losses : List (ℚ × ℚ)

/-- The loop of lines 424-432: feed dictionary number `i` takes chunk
`i` of every split array. -/
def mkBatches (screen_b info_b : List (List Nat)) (cum_b : List (List ℚ))
    (has_b : List (List Bool)) (spat_b : List (List (Option Nat)))
    (valid_b : List (List (List Nat))) (nonspat_b : List (List Nat))
    (learning_rate : ℚ) : List Batch :=
  (List.range NUM_BATCHES).map (fun i =>
    { screen := screen_b.getD i []
      non_spatial_features := info_b.getD i []
      R := cum_b.getD i []
      has_spatial_action := has_b.getD i []
      spatial_action_selected := spat_b.getD i []
      valid_non_spatial_actions := valid_b.getD i []
      non_spatial_action_selected := nonspat_b.getD i []
      learning_rate := learning_rate })

/-- The embedding of `A3CAgent.update`.  Reads the bootstrap value from
the unreversed buffer (lines 340-349), reverses both buffers in place
(lines 362-363), fills the target arrays (lines 351-391), sums the
undiscounted array (line 393), splits every array into `NUM_BATCHES`
chunks (lines 412-418), issues one estimator training call per chunk
collecting the loss pairs (lines 424-436), reverses both buffers back
(lines 439-440) and returns the total reward together with the two
mean losses (lines 442-443). -/
def update (est : A3CEstimator) (hasScreenArg : Nat → Bool) (step_counter : Nat)
    (buf : AgentBuffers) : UpdateResult :=
  let learning_rate : ℚ :=
    LEARNING_RATE * (1 - (9 / 10) * (step_counter : ℚ) / (MAX_STEPS_TOTAL : ℚ))
  let R := bootstrapR est.value buf.replay_states
  let rev_states := buf.replay_states.reverse
  let rev_actions := buf.replay_actions.reverse
  let t := buildTargets hasScreenArg R rev_states rev_actions
  let total_rewards := t.undiscounted_rewards.sum
  let screen_b := array_split t.screen_states NUM_BATCHES
  let info_b := array_split t.non_spatial_feature_states NUM_BATCHES
  let cum_b := array_split t.cumulated_rewards NUM_BATCHES
  let has_b := array_split t.has_spatial_action NUM_BATCHES
  let spat_b := array_split t.spatial_action_selected NUM_BATCHES
  let valid_b := array_split t.valid_non_spatial_action NUM_BATCHES
  let nonspat_b := array_split t.non_spatial_action_selected NUM_BATCHES
  let batches := mkBatches screen_b info_b cum_b has_b spat_b valid_b nonspat_b learning_rate
  let losses := batches.map est.trainStep
  { replay_states := rev_states.reverse
    replay_actions := rev_actions.reverse
    total_rewards := total_rewards
    policy_loss := (losses.map Prod.fst).sum / (NUM_BATCHES : ℚ)
    value_loss := (losses.map Prod.snd).sum / (NUM_BATCHES : ℚ)
    batches := batches
    losses := losses }

/-! ## Action selection in step (lines 279-296) -/

/-- Lines 279-280: the argmax flattened index of the spatial
probability map is decoded into the stored pair
`(index div A3C_SCREEN_SIZE_Y, index mod A3C_SCREEN_SIZE_X)`. -/
def decodeSpatialTarget (flat_index : Nat) : Nat × Nat :=
  (flat_index / A3C_SCREEN_SIZE_Y, flat_index % A3C_SCREEN_SIZE_X)

/-- Line 287: the adaptive exploration threshold
`(STEP_COUNTER + (1 - exploration_rate) * MAX_STEPS_TOTAL) / MAX_STEPS_TOTAL`. -/
def exploreSchedule (step_counter : Nat) : ℚ :=
  ((step_counter : ℚ) + (1 - EXPLORATION_RATE) * (MAX_STEPS_TOTAL : ℚ)) / (MAX_STEPS_TOTAL : ℚ)

/-- Lines 289-292: the non-spatial action override.  `draw1` and
`draw2` are the two uniform `[0,1)` draws; `pick` selects the uniform
element of `valid_actions` chosen by `np.random.choice` when the
override fires.  Returns the executed action id and the
`random_action` flag. -/
def stepActionSelection (step_counter : Nat) (greedy_action_id : Nat)
    (valid_actions : List Nat) (draw1 draw2 : ℚ) (pick : Nat) : Nat × Bool :=
  if exploreSchedule step_counter < draw1 ∨ draw2 < EPSILON then
    (valid_actions.getD (pick % valid_actions.length) greedy_action_id, true)
  else
    (greedy_action_id, false)

/-! ## Checkpointing (lines 474-534) and worker startup (main.py) -/

/-- Line 490: the pickled metadata tuple, in the exact positional order
`(global_steps, global_episodes, A3C_SCREEN_SIZE_Y, A3C_SCREEN_SIZE_X)`
written under the configured resolution `(cfg_x, cfg_y)`. -/
def save_checkpoint_vars (cfg_x cfg_y : Nat) (global_steps global_episodes : Nat) :
    Nat × Nat × Nat × Nat :=
  (global_steps, global_episodes, cfg_y, cfg_x)

/-- Lines 512-520: the metadata restore.  Slot 0 and 1 become the step
and episode counters; slot 2 is read as `screen_x` and asserted equal
to the configured X size, slot 3 as `screen_y` against the configured Y
size.  A failed assertion (a fatal abort) is modelled by `none`;
success returns the restored counters. -/
def load_checkpoint_vars (cfg_x cfg_y : Nat) (python_vars : Nat × Nat × Nat × Nat) :
    Option (Nat × Nat) :=
  let screen_x := python_vars.2.2.1
  let screen_y := python_vars.2.2.2
  if screen_x = cfg_x ∧ screen_y = cfg_y then
    some (python_vars.1, python_vars.2.1)
  else
    none

/-- Outcome of the per-worker XML restore of lines 522-529. -/
structure LoadLogsResult where
  episodes : Nat
  loaded_successfully : Bool
  warned : Bool
deriving DecidableEq

/-- Lines 522-529: when the XML document of the worker is found, the
local episode counter is restored from its last record; when it is
missing, a warning is printed, the counter stays at zero, the log
document stays empty and `loaded_successfully` becomes false. -/
def load_action_log_file (xml_found : Bool) (persisted_episodes : Nat) : LoadLogsResult :=
  if xml_found then
    { episodes := persisted_episodes, loaded_successfully := true, warned := false }
  else
    { episodes := 0, loaded_successfully := false, warned := true }

/-- main.py lines 72-80: on resume (the save path exists) a worker is
appended to the started list only when its `load_checkpoint` call
returns true, which is exactly the `loaded_successfully` flag of the
XML restore; without a resume every worker is started.  Returns the
ids of the workers whose threads are started. -/
def start_a3c_agent (save_path_exists : Bool) (xml_found : Nat → Bool)
    (persisted_episodes : Nat → Nat) (parallel : Nat) : List Nat :=
  (List.range parallel).filter (fun i =>
    if save_path_exists then
      (load_action_log_file (xml_found i) (persisted_episodes i)).loaded_successfully
    else
      true)

/-! ## The per-worker action log (save_action_log, lines 536-605)

The XML tree of one worker is modelled as the ordered list of its
episode elements; an episode element carries the seven summary
attributes of lines 577-583 and the list of its action children. -/

/-- One action child element (lines 586-598). -/
structure ActionRecord where
  name : Nat
  x : Nat
  y : Nat
  random_action : Bool
  random_position : Bool
  collected_minerals : Int
  collected_gas : Int
deriving DecidableEq

/-- One episode element (lines 576-598). -/
structure EpisodeEntry where
  num_global : Nat
  num_agent : Nat
  total_collected_minerals : Int
  total_collected_gas : Int
  loss_actor : ℚ
  loss_critic : ℚ
  episode_reward : ℚ
  actions : List ActionRecord
deriving DecidableEq

/-- The XML document of one worker. -/
structure LogTree where
  entries : List EpisodeEntry
deriving DecidableEq

/-- The summary attributes of an episode element: everything except
the action children. -/
def summaryOf (e : EpisodeEntry) : Nat × Nat × Int × Int × ℚ × ℚ × ℚ :=
  (e.num_global, e.num_agent, e.total_collected_minerals, e.total_collected_gas,
    e.loss_actor, e.loss_critic, e.episode_reward)

/-- The ordering used by `list.sort(key=lambda tup: tup[1], reverse=True)`
(lines 571-572): descending on the metric component. -/
def valueDescOrder (a b : Nat × Int) : Prop := b.2 ≤ a.2

instance : DecidableRel valueDescOrder :=
  fun a b => inferInstanceAs (Decidable (b.2 ≤ a.2))

instance : IsTotal (Nat × Int) valueDescOrder :=
  ⟨fun a b => le_total b.2 a.2⟩

instance : IsTrans (Nat × Int) valueDescOrder :=
  ⟨fun _ _ _ h1 h2 => le_trans h2 h1⟩

/-- The stable descending sort of lines 571-572. -/
def sortByValueDesc (l : List (Nat × Int)) : List (Nat × Int) :=
  l.insertionSort valueDescOrder

/-- The episode ids of the first DETAILED_LOGS elements of the
descending ranking (the two list slices of line 573). -/
def topIds (l : List (Nat × Int)) : List Nat :=
  ((sortByValueDesc l).take DETAILED_LOGS).map (·.1)

/-- Line 573: membership of an episode id in `kept_episodes` — a top
slot in either metric ranking, or membership in
`range(episodes - DETAILED_LOGS + 1, episodes + 1)` (over the
integers, hence `j ≤ episodes ∧ episodes < j + DETAILED_LOGS`). -/
def keptEpisode (minerals_per_episode gas_per_episode : List (Nat × Int))
    (episodes : Nat) (j : Nat) : Prop :=
  j ∈ topIds minerals_per_episode ∨ j ∈ topIds gas_per_episode ∨
    (j ≤ episodes ∧ episodes < j + DETAILED_LOGS)

instance (a b : List (Nat × Int)) (m j : Nat) : Decidable (keptEpisode a b m j) := by
  unfold keptEpisode
  exact inferInstance

/-- The action children written for a kept episode (lines 586-598):
the loop runs over `enumerate(self.replay_actions)` and reads
`self.replay_states[i]` at the same index, so the two buffers are
traversed pointwise. -/
def buildTrace (replay_states : List Transition)
    (replay_actions : List ReplayAction) : List ActionRecord :=
  List.zipWith (fun (a : ReplayAction) (s : Transition) =>
    { name := a.action_id
      x := a.action_target.1
      y := a.action_target.2
      random_action := a.random_action
      random_position := a.random_position
      collected_minerals := s.collected_minerals
      collected_gas := s.collected_vespene : ActionRecord }) replay_actions replay_states

/-- The (episode id, minerals) pairs of the current tree elements, in
tree order (the loop of lines 560-567). -/
def entriesMineralsPool (tree : LogTree) : List (Nat × Int) :=
  tree.entries.map (fun e => (e.num_agent, e.total_collected_minerals))

/-- The (episode id, gas) pairs of the current tree elements. -/
def entriesGasPool (tree : LogTree) : List (Nat × Int) :=
  tree.entries.map (fun e => (e.num_agent, e.total_collected_gas))

/-- Lines 558-567: `minerals_per_episode`, seeded with the episode
being appended and followed by one pair per tree element. -/
def mineralsPool (tree : LogTree) (episodes : Nat) (total : Int) : List (Nat × Int) :=
  (episodes, total) :: entriesMineralsPool tree

/-- Lines 558-567: `gas_per_episode`. -/
def gasPool (tree : LogTree) (episodes : Nat) (total : Int) : List (Nat × Int) :=
  (episodes, total) :: entriesGasPool tree

/-- Line 555: `total_collected_minerals`, read from the last buffered
transition. -/
def logTotalMinerals (replay_states : List Transition) : Int :=
  (replay_states.getLast?.map (·.collected_minerals)).getD 0

/-- Line 556: `total_collected_gas`. -/
def logTotalGas (replay_states : List Transition) : Int :=
  (replay_states.getLast?.map (·.collected_vespene)).getD 0

/-- The kept id set of one append (lines 558-574), as a predicate on
episode ids. -/
def keptOfAppend (tree : LogTree) (episodes : Nat)
    (replay_states : List Transition) (j : Nat) : Prop :=
  keptEpisode (mineralsPool tree episodes (logTotalMinerals replay_states))
    (gasPool tree episodes (logTotalGas replay_states)) episodes j

instance (tree : LogTree) (episodes : Nat) (replay_states : List Transition)
    (j : Nat) : Decidable (keptOfAppend tree episodes replay_states j) := by
  unfold keptOfAppend
  exact inferInstance

/-- The `log_entry` element of lines 576-598: the seven summary
attributes, and the action children exactly when the own id of the new
episode is kept. -/
def newLogEntry (tree : LogTree) (episodes num_episode : Nat)
    (reward policy_loss value_loss : ℚ) (replay_states : List Transition)
    (replay_actions : List ReplayAction) : EpisodeEntry :=
  { num_global := num_episode
    num_agent := episodes
    total_collected_minerals := logTotalMinerals replay_states
    total_collected_gas := logTotalGas replay_states
    loss_actor := policy_loss
    loss_critic := value_loss
    episode_reward := reward
    actions :=
      if keptOfAppend tree episodes replay_states episodes then
        buildTrace replay_states replay_actions
      else
        [] }

/-- The pruning loop of lines 600-603: an episode element whose id is
outside the kept set loses its action children and keeps its
attributes.  The loop locates each element by its `num_agent`
attribute, which is unique in every reachable document, so it acts on
each element according to its own id. -/
def stripEntry (tree : LogTree) (episodes : Nat)
    (replay_states : List Transition) (e : EpisodeEntry) : EpisodeEntry :=
  if keptOfAppend tree episodes replay_states e.num_agent then e
  else { e with actions := [] }

/-- The embedding of `A3CAgent.save_action_log` (lines 536-605).
`episodes` is the current value of `self.episodes`, the local index of
the episode being appended.  The new element is appended (line 576) and
then every element outside the kept set is stripped (lines 600-603). -/
def save_action_log (tree : LogTree) (episodes : Nat) (num_episode : Nat)
    (reward policy_loss value_loss : ℚ)
    (replay_states : List Transition) (replay_actions : List ReplayAction) : LogTree :=
  ⟨(tree.entries ++ [newLogEntry tree episodes num_episode reward policy_loss value_loss
      replay_states replay_actions]).map (stripEntry tree episodes replay_states)⟩

/-- Metric values of a pool are pairwise distinct.  The testable
retention property of the specification is stated for episodes with
distinct metric values; ties would be broken by the stability of the
Python sort. -/
def distinctVals (l : List (Nat × Int)) : Prop :=
  l.Pairwise (fun p q => p.2 ≠ q.2)

instance (l : List (Nat × Int)) : Decidable (distinctVals l) := by
  unfold distinctVals
  exact inferInstance

/-- Shorthand for the target arrays computed by an update call on a
buffer: `buildTargets` applied to the bootstrap value and the two
reversed buffers, exactly as in `update`. -/
def updateTargetsOf (est : A3CEstimator) (hasScreenArg : Nat → Bool)
    (buf : AgentBuffers) : UpdateTargets :=
  buildTargets hasScreenArg (bootstrapR est.value buf.replay_states)
    buf.replay_states.reverse buf.replay_actions.reverse

/-- The learning rate of line 338:
`LEARNING_RATE * (1 - 0.9 * STEP_COUNTER / MAX_STEPS_TOTAL)`. -/
def updateLearningRate (step_counter : Nat) : ℚ :=
  LEARNING_RATE * (1 - (9 / 10) * (step_counter : ℚ) / (MAX_STEPS_TOTAL : ℚ))

/-! ## Helper lemmas -/

theorem cumulatedRewardsAux_length (d prev : ℚ) (l : List ℚ) :
    (cumulatedRewardsAux d prev l).length = l.length := by
  induction l generalizing prev with
  | nil => rfl
  | cons r rs ih => simp [cumulatedRewardsAux, ih]

theorem cumulatedRewards_length (d R : ℚ) (l : List ℚ) :
    (cumulatedRewards d R l).length = l.length := by
  cases l with
  | nil => rfl
  | cons r rs => simp [cumulatedRewards, cumulatedRewardsAux_length]

theorem cumulatedRewardsAux_recur (d : ℚ) :
    ∀ (l : List ℚ) (prev : ℚ) (i : Nat), i + 1 < l.length →
      ∃ ri ci, l[i + 1]? = some ri ∧ (cumulatedRewardsAux d prev l)[i]? = some ci ∧
        (cumulatedRewardsAux d prev l)[i + 1]? = some (ri + d * ci) := by
  intro l
  induction l with
  | nil => intro prev i h; simp at h
  | cons r rs ih =>
    intro prev i h
    cases i with
    | zero =>
      cases rs with
      | nil => simp at h
      | cons r2 rs2 =>
        exact ⟨r2, r + d * prev, by simp, by simp [cumulatedRewardsAux],
          by simp [cumulatedRewardsAux]⟩
    | succ j =>
      have h2 : j + 1 < rs.length := by simpa using h
      obtain ⟨ri, ci, h1, hci, h3⟩ := ih (r + d * prev) j h2
      exact ⟨ri, ci, by simpa using h1, by simpa [cumulatedRewardsAux] using hci,
        by simpa [cumulatedRewardsAux] using h3⟩

theorem cumulatedRewards_recur (d R : ℚ) (l : List ℚ) (i : Nat) (h : i + 1 < l.length) :
    ∃ ri ci, l[i + 1]? = some ri ∧ (cumulatedRewards d R l)[i]? = some ci ∧
      (cumulatedRewards d R l)[i + 1]? = some (ri + d * ci) := by
  cases l with
  | nil => simp at h
  | cons r0 rs =>
    cases i with
    | zero =>
      cases rs with
      | nil => simp at h
      | cons r1 rs2 =>
        exact ⟨r1, R, by simp, by simp [cumulatedRewards],
          by simp [cumulatedRewards, cumulatedRewardsAux]⟩
    | succ j =>
      have h2 : j + 1 < rs.length := by simpa using h
      obtain ⟨ri, ci, h1, hci, h3⟩ := cumulatedRewardsAux_recur d rs R j h2
      exact ⟨ri, ci, by simpa using h1, by simpa [cumulatedRewards] using hci,
        by simpa [cumulatedRewards] using h3⟩

theorem cumulatedRewards_head (d R : ℚ) (l : List ℚ) (h : l ≠ []) :
    (cumulatedRewards d R l)[0]? = some R := by
  cases l with
  | nil => exact absurd rfl h
  | cons r rs => simp [cumulatedRewards]

theorem undiscountedRewards_sum (R : ℚ) (m : List ℚ) (h : m ≠ []) :
    (undiscountedRewards R m).sum = R + m.tail.sum := by
  cases m with
  | nil => exact absurd rfl h
  | cons r rs => simp [undiscountedRewards]

theorem range_map_if_lt_sum (n m a : Nat) :
    ((List.range n).map (fun i => if i < m then a + 1 else a)).sum = n * a + min m n := by
  induction n with
  | zero => simp
  | succ k ih =>
    rw [List.range_succ, List.map_append, List.sum_append]
    simp only [List.map_cons, List.map_nil, List.sum_cons, List.sum_nil, ih]
    rw [Nat.succ_mul]
    by_cases h : k < m <;> simp [h] <;> omega

theorem arraySplitSizes_sum (len n : Nat) (hn : n ≠ 0) :
    (arraySplitSizes len n).sum = len := by
  unfold arraySplitSizes
  rw [range_map_if_lt_sum]
  have h1 : len % n < n := Nat.mod_lt len (Nat.pos_of_ne_zero hn)
  have h2 : n * (len / n) + len % n = len := Nat.div_add_mod len n
  omega

theorem arraySplitSizes_length (len n : Nat) : (arraySplitSizes len n).length = n := by
  simp [arraySplitSizes]

theorem splitBySizes_length {α : Type} :
    ∀ (ss : List Nat) (xs : List α), (splitBySizes ss xs).length = ss.length := by
  intro ss
  induction ss with
  | nil => intro xs; rfl
  | cons s ss ih => intro xs; simp [splitBySizes, ih]

theorem splitBySizes_join {α : Type} :
    ∀ (ss : List Nat) (xs : List α), (splitBySizes ss xs).flatten = xs.take ss.sum := by
  intro ss
  induction ss with
  | nil => intro xs; simp [splitBySizes]
  | cons s ss ih =>
    intro xs
    simp only [splitBySizes, List.flatten_cons, List.sum_cons, ih]
    rw [List.take_add]

theorem splitBySizes_map_length {α : Type} :
    ∀ (ss : List Nat) (xs : List α), ss.sum ≤ xs.length →
      (splitBySizes ss xs).map List.length = ss := by
  intro ss
  induction ss with
  | nil => intro xs _; rfl
  | cons s ss ih =>
    intro xs h
    simp only [List.sum_cons] at h
    have hs : s ≤ xs.length := le_trans (Nat.le_add_right s ss.sum) h
    simp only [splitBySizes, List.map_cons, List.length_take, min_eq_left hs]
    rw [ih (xs.drop s) (by simp [List.length_drop]; omega)]

theorem array_split_join {α : Type} (xs : List α) (n : Nat) (hn : n ≠ 0) :
    (array_split xs n).flatten = xs := by
  unfold array_split
  rw [splitBySizes_join, arraySplitSizes_sum _ _ hn, List.take_length]

theorem array_split_length {α : Type} (xs : List α) (n : Nat) :
    (array_split xs n).length = n := by
  unfold array_split
  rw [splitBySizes_length, arraySplitSizes_length]

theorem array_split_map_length {α : Type} (xs : List α) (n : Nat) (hn : n ≠ 0) :
    (array_split xs n).map List.length = arraySplitSizes xs.length n := by
  unfold array_split
  exact splitBySizes_map_length _ _ (le_of_eq (arraySplitSizes_sum _ _ hn))

theorem range_map_getD {β : Type} (d : β) :
    ∀ (l : List β), (List.range l.length).map (fun i => l.getD i d) = l := by
  intro l
  induction l with
  | nil => rfl
  | cons a l ih =>
    show (List.range (l.length + 1)).map (fun i => (a :: l).getD i d) = a :: l
    rw [List.range_succ_eq_map, List.map_cons, List.map_map]
    have h2 : ((fun i => (a :: l).getD i d) ∘ Nat.succ) = fun i => l.getD i d := by
      funext i
      simp
    rw [h2, ih]
    simp

/-! ## Claim C2 -/

/-- C2: for every non-empty trajectory whose final transition is
terminal, the bootstrap value of lines 340-349 is exactly 0 regardless
of the estimator value head; for a non-terminal final transition it is
the value head evaluated on the final buffered state. -/
theorem c2_terminal_bootstrap (value0 : Nat → Nat → ℚ) (states : List Transition)
    (h : states ≠ []) :
    ((states.getLast h).is_last = true →
      ∀ value : Nat → Nat → ℚ, bootstrapR value states = 0)
    ∧ ((states.getLast h).is_last = false →
      bootstrapR value0 states =
        value0 (states.getLast h).screen (states.getLast h).non_spatial_features) := by
  unfold bootstrapR
  rw [List.getLast?_eq_getLast states h]
  constructor
  · intro ht _
    simp [ht]
  · intro hf
    simp [hf]

/-- Witness for C2 at a concrete one-transition terminal trajectory and
a value head that answers 42. -/
theorem c2_witness :
    bootstrapR (fun _ _ => 42) [⟨0, 0, 1, 0, 0, true⟩] = 0 :=
  (c2_terminal_bootstrap (fun _ _ => 42) [⟨0, 0, 1, 0, 0, true⟩]
    (List.cons_ne_nil _ _)).1 rfl _

/-! ## Claim C10 -/

/-- C10: update reverses both replay buffers to compute the returns and
reverses them back before returning, so the buffers it hands back are
unchanged and in the original chronological order. -/
theorem c10_buffers_restored (est : A3CEstimator) (hasScreenArg : Nat → Bool)
    (step_counter : Nat) (buf : AgentBuffers) (h : buf.replay_states ≠ []) :
    (update est hasScreenArg step_counter buf).replay_states = buf.replay_states
    ∧ (update est hasScreenArg step_counter buf).replay_actions = buf.replay_actions := by
  constructor <;> simp [update]

/-- Witness for C10 at a concrete one-transition buffer. -/
theorem c10_witness :
    (update ⟨fun _ _ => 0, fun _ => (0, 0)⟩ (fun _ => false) 0
      ⟨[⟨0, 0, 1, 0, 0, true⟩], [⟨0, (0, 0), [], false, false⟩]⟩).replay_states
      = [⟨0, 0, 1, 0, 0, true⟩] :=
  (c10_buffers_restored _ _ _ _ (List.cons_ne_nil _ _)).1

/-! ## Claim C7 -/

/-- C7: evaluation of the checkpoint metadata swap.  Line 490 pickles
`(steps, episodes, Y, X)` while lines 516-520 read slot 2 back as the X
resolution and slot 3 as the Y resolution.  Under a configuration with
X = 32 and Y = 64 the same-configuration round trip fails the
resolution assertion; a checkpoint persisted under the transposed
resolution (64, 32) loads successfully although its resolution differs;
the shipped 32 by 32 configuration masks the swap and restores the two
counters exactly. -/
theorem c7_resolution_swap :
    load_checkpoint_vars 32 64 (save_checkpoint_vars 32 64 5 1) = none
    ∧ load_checkpoint_vars 32 64 (save_checkpoint_vars 64 32 5 1) = some (5, 1)
    ∧ (∀ s e : Nat, load_checkpoint_vars 32 32 (save_checkpoint_vars 32 32 s e) = some (s, e)) := by
  refine ⟨by decide, by decide, fun s e => by simp [load_checkpoint_vars, save_checkpoint_vars]⟩

/-! ## Claim C8 -/

/-- C8 counterexample: with the checkpoint present and the XML log of
worker 0 missing, main.py lines 76-78 append a worker only when
`load_checkpoint` returned true, so worker 0 is dropped from the
started list — it does not participate in the run, contradicting the
claim that the worker is still started.  The warning and the zeroed
episode counter of lines 527-529 do happen. -/
theorem c8_missing_log_drops_worker :
    start_a3c_agent true (fun i => decide (i ≠ 0)) (fun _ => 3) 2 = [1]
    ∧ 0 ∉ start_a3c_agent true (fun i => decide (i ≠ 0)) (fun _ => 3) 2
    ∧ (load_action_log_file false 3).warned = true
    ∧ (load_action_log_file false 3).episodes = 0 := by decide

/-- C8 amended: on resume a worker with a missing log document gets a
non-fatal warning, a zero episode counter and a false
`loaded_successfully` flag, and is then excluded from the started
worker list (the run itself continues with the others); a worker whose
document is found is started. -/
theorem c8_amended (xml_found : Nat → Bool) (persisted_episodes : Nat → Nat)
    (parallel i : Nat) (hi : i < parallel) :
    (i ∈ start_a3c_agent true xml_found persisted_episodes parallel ↔ xml_found i = true)
    ∧ (xml_found i = false →
        (load_action_log_file (xml_found i) (persisted_episodes i)).episodes = 0
        ∧ (load_action_log_file (xml_found i) (persisted_episodes i)).warned = true
        ∧ (load_action_log_file (xml_found i) (persisted_episodes i)).loaded_successfully = false) := by
  constructor
  · simp only [start_a3c_agent, List.mem_filter, List.mem_range, if_true]
    cases hx : xml_found i <;> simp [hx, hi, load_action_log_file]
  · intro hx
    simp [load_action_log_file, hx]

/-- Witness for C8 amended at worker 1 of 2 with its document present. -/
theorem c8_witness :
    1 ∈ start_a3c_agent true (fun i => decide (i ≠ 0)) (fun _ => 3) 2
      ↔ decide ((1 : Nat) ≠ 0) = true :=
  (c8_amended (fun i => decide (i ≠ 0)) (fun _ => 3) 2 1 (by norm_num)).1

/-! ## Claim C9 -/

/-- C9 counterexample: the flattened index 1 is decoded by lines
279-280 into the stored pair (0, 1), and the update loop (line 390)
re-encodes that pair as 1 * 32 + 0 = 32, so the spatial one-hot row
marks flattened index 32, not the argmax index 1: decode followed by
re-encode is not the identity. -/
theorem c9_roundtrip_not_identity :
    decodeSpatialTarget 1 = (0, 1)
    ∧ encodeSpatialIndex (decodeSpatialTarget 1) = 32
    ∧ encodeSpatialIndex (decodeSpatialTarget 1) ≠ 1
    ∧ (buildTargets (fun _ => true) 0 [⟨0, 0, 0, 0, 0, true⟩]
        [⟨331, decodeSpatialTarget 1, [331], false, false⟩]).spatial_action_selected
        = [some 32] := by
  refine ⟨by decide, by decide, by decide, by decide⟩

/-- C9 amended: step decodes the argmax flattened index f as
(f div 32, f mod 32) as the claim states, but the one-hot index built
during the update marks the transposed index
(f mod 32) * 32 + f div 32; the decode-then-re-encode composite is the
identity exactly on the diagonal indices with f div 32 = f mod 32.  The
one-hot row of a spatial transition marks the re-encoding of its stored
target pair. -/
theorem c9_amended (f : Nat) (hf : f < A3C_SCREEN_SIZE_X * A3C_SCREEN_SIZE_Y)
    (hasScreenArg : Nat → Bool) (R : ℚ) (rev_states : List Transition)
    (rev_actions : List ReplayAction) (i : Nat) (a : ReplayAction)
    (ha : rev_actions[i]? = some a) (hs : hasScreenArg a.action_id = true) :
    decodeSpatialTarget f = (f / 32, f % 32)
    ∧ encodeSpatialIndex (decodeSpatialTarget f) = f % 32 * 32 + f / 32
    ∧ (encodeSpatialIndex (decodeSpatialTarget f) = f ↔ f / 32 = f % 32)
    ∧ (buildTargets hasScreenArg R rev_states rev_actions).spatial_action_selected[i]?
        = some (some (encodeSpatialIndex a.action_target)) := by
  have hf2 : f < 1024 := by simpa [A3C_SCREEN_SIZE_X, A3C_SCREEN_SIZE_Y] using hf
  refine ⟨rfl, rfl, ?_, ?_⟩
  · show f % 32 * 32 + f / 32 = f ↔ f / 32 = f % 32
    omega
  · simp [buildTargets, List.getElem?_map, ha, hs]

/-- Witness for C9 amended at the concrete index 33 and a concrete
one-transition buffer. -/
theorem c9_witness :
    (buildTargets (fun _ => true) 0 [⟨0, 0, 0, 0, 0, true⟩]
        [⟨331, decodeSpatialTarget 33, [331], false, false⟩]).spatial_action_selected[0]?
      = some (some (encodeSpatialIndex (decodeSpatialTarget 33))) :=
  (c9_amended 33 (by decide) (fun _ => true) 0 [⟨0, 0, 0, 0, 0, true⟩]
    [⟨331, decodeSpatialTarget 33, [331], false, false⟩] 0 _ rfl rfl).2.2.2

/-! ## Claim C3 -/

/-- C3 counterexample: the exploration schedule of line 287 equals
(1 - explorationRate) at step 0, but at step MAX_STEPS_TOTAL it equals
9/5 = 2 - explorationRate, not 1.0 as the claim states. -/
theorem c3_schedule_at_max_not_one :
    exploreSchedule MAX_STEPS_TOTAL = 9 / 5
    ∧ exploreSchedule MAX_STEPS_TOTAL ≠ 1
    ∧ exploreSchedule 0 = 1 - EXPLORATION_RATE := by
  norm_num [exploreSchedule, EXPLORATION_RATE, MAX_STEPS_TOTAL]

/-- C3 amended: the schedule is the linear function
(1 - explorationRate) + s / maxSteps; it equals 1 - explorationRate at
s = 0, reaches 1.0 already at s = explorationRate * maxSteps =
2 * 10^6, and equals 2 - explorationRate at s = maxSteps.  The action
is replaced by a draw over the currently-legal actions exactly when the
first random draw exceeds the schedule value or the second draw falls
below epsilon; otherwise the greedy action is kept. -/
theorem c3_amended (s : Nat) (greedy_action_id : Nat) (valid_actions : List Nat)
    (draw1 draw2 : ℚ) (pick : Nat) (hva : valid_actions ≠ []) :
    exploreSchedule s = (1 - EXPLORATION_RATE) + (s : ℚ) / (MAX_STEPS_TOTAL : ℚ)
    ∧ exploreSchedule (2 * 10 ^ 6) = 1
    ∧ exploreSchedule MAX_STEPS_TOTAL = 2 - EXPLORATION_RATE
    ∧ ((stepActionSelection s greedy_action_id valid_actions draw1 draw2 pick).2 = true
        ↔ (exploreSchedule s < draw1 ∨ draw2 < EPSILON))
    ∧ ((exploreSchedule s < draw1 ∨ draw2 < EPSILON) →
        (stepActionSelection s greedy_action_id valid_actions draw1 draw2 pick).1
          ∈ valid_actions)
    ∧ (¬(exploreSchedule s < draw1 ∨ draw2 < EPSILON) →
        stepActionSelection s greedy_action_id valid_actions draw1 draw2 pick
          = (greedy_action_id, false)) := by
  refine ⟨?_, ?_, ?_, ?_, ?_, ?_⟩
  · unfold exploreSchedule
    have hM : ((MAX_STEPS_TOTAL : ℚ)) ≠ 0 := by norm_num [MAX_STEPS_TOTAL]
    field_simp
    ring
  · norm_num [exploreSchedule, EXPLORATION_RATE, MAX_STEPS_TOTAL]
  · norm_num [exploreSchedule, EXPLORATION_RATE, MAX_STEPS_TOTAL]
  · by_cases h : exploreSchedule s < draw1 ∨ draw2 < EPSILON <;>
      simp [stepActionSelection, h]
  · intro h
    simp only [stepActionSelection, if_pos h]
    have hlen : 0 < valid_actions.length := List.length_pos.mpr hva
    have hlt : pick % valid_actions.length < valid_actions.length := Nat.mod_lt _ hlen
    rw [List.getD_eq_getElem?_getD, List.getElem?_eq_getElem hlt]
    exact List.getElem_mem hlt
  · intro h
    simp [stepActionSelection, h]

/-- Witness for C3 amended at a concrete step and draw pair for which
the override condition fires. -/
theorem c3_witness :
    (stepActionSelection 0 7 [3, 7] 1 0 5).2 = true
      ↔ (exploreSchedule 0 < 1 ∨ (0 : ℚ) < EPSILON) :=
  (c3_amended 0 7 [3, 7] 1 0 5 (List.cons_ne_nil _ _)).2.2.2.1

/-! ## Claim C1 -/

/-- C1 counterexample: running the recurrence of lines 351-375 on the
worked example (chronological rewards [1, 2, 3], hence reversed reward
list [3, 2, 1], discount 0.99, bootstrap R = 10) yields the reversed
returns [10, 11.9, 12.781]: element 1 is 2 + 0.99 * 10, not the claimed
3 + 0.99 * 10 = 12.9, because the loop of line 374 adds the reward
stored at reversed index i itself, not the reward at reversed index
i - 1. -/
theorem c1_worked_example_false :
    cumulatedRewards DISCOUNT_FACTOR 10 [3, 2, 1] = [10, 119 / 10, 12781 / 1000]
    ∧ (119 : ℚ) / 10 ≠ 3 + 99 / 100 * 10
    ∧ (12781 : ℚ) / 1000 ≠ 2 + 99 / 100 * (3 + 99 / 100 * 10) := by
  refine ⟨?_, by norm_num, by norm_num⟩
  norm_num [cumulatedRewards, cumulatedRewardsAux, DISCOUNT_FACTOR]

/-- C1 amended: for every trajectory processed in reverse with
bootstrap R, the reversed returns satisfy return[0] = R and, for
reversed index i > 0, return[i] = (reward stored at reversed index i,
that is, at original index T - 1 - i) + discount * return[i-1]; on the
worked example this gives [10, 11.9, 12.781].  The cumulated-reward
array of the update is exactly this recurrence applied to the reversed
reward list. -/
theorem c1_amended (d R : ℚ) (l : List ℚ) (hasScreenArg : Nat → Bool)
    (rev_states : List Transition) (rev_actions : List ReplayAction) :
    (cumulatedRewards d R l).length = l.length
    ∧ (l ≠ [] → (cumulatedRewards d R l)[0]? = some R)
    ∧ (∀ i : Nat, i + 1 < l.length →
        ∃ ri ci, l[i + 1]? = some ri ∧ (cumulatedRewards d R l)[i]? = some ci ∧
          (cumulatedRewards d R l)[i + 1]? = some (ri + d * ci))
    ∧ (buildTargets hasScreenArg R rev_states rev_actions).cumulated_rewards
        = cumulatedRewards DISCOUNT_FACTOR R (rev_states.map (·.reward)) :=
  ⟨cumulatedRewards_length d R l, cumulatedRewards_head d R l,
    cumulatedRewards_recur d R l, rfl⟩

/-- Witness for C1 amended at the worked example, reversed index 1. -/
theorem c1_witness :
    ∃ ri ci, ([3, 2, 1] : List ℚ)[1]? = some ri
      ∧ (cumulatedRewards (99 / 100) 10 [3, 2, 1])[0]? = some ci
      ∧ (cumulatedRewards (99 / 100) 10 [3, 2, 1])[1]? = some (ri + 99 / 100 * ci) :=
  (c1_amended (99 / 100) 10 [3, 2, 1] (fun _ => false) [] []).2.2.1 0 (by norm_num)

/-! ## Claim C4 -/

/-- C4 counterexample: for the 3-step non-terminal buffer with
chronological rewards [1, 2, 3] and a value head answering 10, the
reported episode reward is 13 = R + 2 + 1: lines 352-354 seed the
undiscounted array with the bootstrap value R and the loop of line 375
never stores the reward of the last transition (reversed index 0), so
the sum both contains R and misses the final reward — it is not the
claimed 1 + 2 + 3 = 6. -/
theorem c4_total_reward_includes_bootstrap :
    (update ⟨fun _ _ => 10, fun _ => (0, 0)⟩ (fun _ => false) 0
        ⟨[⟨0, 0, 1, 0, 0, false⟩, ⟨0, 0, 2, 0, 0, false⟩, ⟨0, 0, 3, 0, 0, false⟩],
          []⟩).total_rewards = 13
    ∧ (13 : ℚ) ≠ 1 + 2 + 3 := by
  constructor
  · show (undiscountedRewards (bootstrapR (fun _ _ => 10)
        [⟨0, 0, 1, 0, 0, false⟩, ⟨0, 0, 2, 0, 0, false⟩, ⟨0, 0, 3, 0, 0, false⟩])
        (([⟨0, 0, 1, 0, 0, false⟩, ⟨0, 0, 2, 0, 0, false⟩, ⟨0, 0, 3, 0, 0, false⟩]
          : List Transition).reverse.map (·.reward))).sum = 13
    norm_num [undiscountedRewards, bootstrapR, List.getLast?]
  · norm_num

/-- C4 amended: the reward reported by update equals the bootstrap
value R plus the sum of the rewards of all buffered transitions except
the last one: the bootstrap is included in the sum and the final
transition reward is dropped. -/
theorem c4_amended (est : A3CEstimator) (hasScreenArg : Nat → Bool) (step_counter : Nat)
    (buf : AgentBuffers) (h : buf.replay_states ≠ []) :
    (update est hasScreenArg step_counter buf).total_rewards
      = bootstrapR est.value buf.replay_states
        + ((buf.replay_states.map (·.reward)).dropLast).sum := by
  show (undiscountedRewards (bootstrapR est.value buf.replay_states)
      (buf.replay_states.reverse.map (·.reward))).sum = _
  rw [undiscountedRewards_sum _ _ (by simp [h])]
  congr 1
  rw [List.map_reverse, List.tail_reverse, List.sum_reverse]

/-- Witness for C4 amended at a concrete two-transition terminal
buffer. -/
theorem c4_witness :
    (update ⟨fun _ _ => 0, fun _ => (0, 0)⟩ (fun _ => false) 0
        ⟨[⟨0, 0, 5, 0, 0, false⟩, ⟨0, 0, 7, 0, 0, true⟩], []⟩).total_rewards
      = bootstrapR (fun _ _ => 0)
          [⟨0, 0, 5, 0, 0, false⟩, ⟨0, 0, 7, 0, 0, true⟩]
        + ((([⟨0, 0, 5, 0, 0, false⟩, ⟨0, 0, 7, 0, 0, true⟩]
            : List Transition).map (·.reward)).dropLast).sum :=
  c4_amended ⟨fun _ _ => 0, fun _ => (0, 0)⟩ (fun _ => false) 0
    ⟨[⟨0, 0, 5, 0, 0, false⟩, ⟨0, 0, 7, 0, 0, true⟩], []⟩ (List.cons_ne_nil _ _)

theorem range_map_getD_of_length {β : Type} (d : β) (l : List β) (n : Nat)
    (h : l.length = n) :
    (List.range n).map (fun i => l.getD i d) = l := by
  subst h
  exact range_map_getD d l

theorem mkBatches_map_R (screen_b info_b : List (List Nat)) (cum_b : List (List ℚ))
    (has_b : List (List Bool)) (spat_b : List (List (Option Nat)))
    (valid_b : List (List (List Nat))) (nonspat_b : List (List Nat))
    (learning_rate : ℚ) :
    (mkBatches screen_b info_b cum_b has_b spat_b valid_b nonspat_b learning_rate).map
        (fun b => b.R)
      = (List.range NUM_BATCHES).map (fun i => cum_b.getD i []) := by
  unfold mkBatches
  rw [List.map_map]
  rfl

theorem mkBatches_length (screen_b info_b : List (List Nat)) (cum_b : List (List ℚ))
    (has_b : List (List Bool)) (spat_b : List (List (Option Nat)))
    (valid_b : List (List (List Nat))) (nonspat_b : List (List Nat))
    (learning_rate : ℚ) :
    (mkBatches screen_b info_b cum_b has_b spat_b valid_b nonspat_b learning_rate).length
      = NUM_BATCHES := by
  simp [mkBatches]

theorem update_batches_eq (est : A3CEstimator) (hasScreenArg : Nat → Bool)
    (step_counter : Nat) (buf : AgentBuffers) :
    (update est hasScreenArg step_counter buf).batches
      = mkBatches
          (array_split (updateTargetsOf est hasScreenArg buf).screen_states NUM_BATCHES)
          (array_split (updateTargetsOf est hasScreenArg buf).non_spatial_feature_states NUM_BATCHES)
          (array_split (updateTargetsOf est hasScreenArg buf).cumulated_rewards NUM_BATCHES)
          (array_split (updateTargetsOf est hasScreenArg buf).has_spatial_action NUM_BATCHES)
          (array_split (updateTargetsOf est hasScreenArg buf).spatial_action_selected NUM_BATCHES)
          (array_split (updateTargetsOf est hasScreenArg buf).valid_non_spatial_action NUM_BATCHES)
          (array_split (updateTargetsOf est hasScreenArg buf).non_spatial_action_selected NUM_BATCHES)
          (updateLearningRate step_counter) := rfl

theorem update_losses_eq (est : A3CEstimator) (hasScreenArg : Nat → Bool)
    (step_counter : Nat) (buf : AgentBuffers) :
    (update est hasScreenArg step_counter buf).losses
      = (update est hasScreenArg step_counter buf).batches.map est.trainStep := rfl

/-! ## Claim C5 -/

/-- C5 counterexample: for T = 21 the chunk sizes produced by
`np.array_split` (lines 412-418) are [2, 1, ..., 1]: the one-element
remainder enlarges the first chunk, while the claim places the
remainder in the final chunk, which would give sizes [1, ..., 1, 2]. -/
theorem c5_remainder_in_first_chunk :
    (array_split (List.range 21) NUM_BATCHES).map List.length = 2 :: List.replicate 19 1
    ∧ (array_split (List.range 21) NUM_BATCHES).map List.length
        ≠ (List.range NUM_BATCHES).map (fun i =>
            if i = NUM_BATCHES - 1 then 21 / NUM_BATCHES + 21 % NUM_BATCHES
            else 21 / NUM_BATCHES) := by decide

/-- C5 amended: splitting any T-length target array into NUM_BATCHES
contiguous chunks of near-equal size — the first T mod NUM_BATCHES
chunks one element larger, not the final chunk — covers every sample
exactly once with no duplication (the concatenation of the chunks is
the original array), for T below NUM_BATCHES as well (chunks may be
empty); there are exactly NUM_BATCHES chunks and the update issues one
estimator training call per chunk. -/
theorem c5_amended {α : Type} (xs : List α) (est : A3CEstimator)
    (hasScreenArg : Nat → Bool) (step_counter : Nat) (buf : AgentBuffers) :
    (array_split xs NUM_BATCHES).flatten = xs
    ∧ (array_split xs NUM_BATCHES).length = NUM_BATCHES
    ∧ (array_split xs NUM_BATCHES).map List.length = arraySplitSizes xs.length NUM_BATCHES
    ∧ (∀ c ∈ array_split xs NUM_BATCHES,
        c.length = xs.length / NUM_BATCHES ∨ c.length = xs.length / NUM_BATCHES + 1)
    ∧ ((update est hasScreenArg step_counter buf).batches.map (fun b => b.R)).flatten
        = cumulatedRewards DISCOUNT_FACTOR (bootstrapR est.value buf.replay_states)
            (buf.replay_states.reverse.map (·.reward))
    ∧ (update est hasScreenArg step_counter buf).batches.length = NUM_BATCHES
    ∧ (update est hasScreenArg step_counter buf).losses.length = NUM_BATCHES := by
  have hn : NUM_BATCHES ≠ 0 := by norm_num [NUM_BATCHES]
  refine ⟨array_split_join xs NUM_BATCHES hn, array_split_length xs NUM_BATCHES,
    array_split_map_length xs NUM_BATCHES hn, ?_, ?_, ?_, ?_⟩
  · intro c hc
    have hmem := List.mem_map_of_mem List.length hc
    rw [array_split_map_length xs NUM_BATCHES hn] at hmem
    simp only [arraySplitSizes, List.mem_map, List.mem_range] at hmem
    obtain ⟨i, _, hi⟩ := hmem
    by_cases hlt : i < xs.length % NUM_BATCHES
    · rw [if_pos hlt] at hi
      right
      omega
    · rw [if_neg hlt] at hi
      left
      omega
  · rw [update_batches_eq, mkBatches_map_R,
      range_map_getD_of_length [] _ _ (array_split_length _ _),
      array_split_join _ _ hn]
    rfl
  · rw [update_batches_eq, mkBatches_length]
  · rw [update_losses_eq, List.length_map, update_batches_eq, mkBatches_length]

/-! ## Lemmas on the retention ranking -/

theorem sortByValueDesc_perm (l : List (Nat × Int)) : (sortByValueDesc l).Perm l :=
  List.perm_insertionSort valueDescOrder l

theorem sortByValueDesc_sorted (l : List (Nat × Int)) :
    List.Sorted valueDescOrder (sortByValueDesc l) :=
  List.sorted_insertionSort valueDescOrder l

theorem distinctVals_symm : ∀ {x y : Nat × Int},
    (fun p q : Nat × Int => p.2 ≠ q.2) x y → (fun p q : Nat × Int => p.2 ≠ q.2) y x :=
  fun h => Ne.symm h

theorem distinctVals_of_perm {l1 l2 : List (Nat × Int)} (h : l1.Perm l2)
    (hd : distinctVals l1) : distinctVals l2 :=
  (List.Perm.pairwise_iff distinctVals_symm h).mp hd

/-- On a list sorted descending by value with pairwise distinct values,
an element is among the first K exactly when fewer than K elements of
the list have a strictly larger value. -/
theorem mem_take_sorted_iff :
    ∀ (s : List (Nat × Int)), List.Sorted valueDescOrder s → distinctVals s →
      ∀ (K : Nat) (p : Nat × Int),
        (p ∈ s.take K ↔ p ∈ s ∧ (s.filter (fun q => p.2 < q.2)).length < K) := by
  intro s
  induction s with
  | nil =>
    intro _ _ K p
    simp
  | cons a t ih =>
    intro hsort hdist K p
    have hsort2 : List.Sorted valueDescOrder t := hsort.of_cons
    have hdist2 : distinctVals t := hdist.of_cons
    have hlea : ∀ q ∈ t, q.2 ≤ a.2 := fun q hq => List.rel_of_sorted_cons hsort q hq
    have hnea : ∀ q ∈ t, a.2 ≠ q.2 := fun q hq => (List.pairwise_cons.mp hdist).1 q hq
    cases K with
    | zero => simp
    | succ K =>
      rw [List.take_succ_cons]
      constructor
      · intro hp
        rcases List.mem_cons.mp hp with hpa | hp2
        · refine ⟨by rw [hpa]; exact List.mem_cons_self _ _, ?_⟩
          have hfil : (a :: t).filter (fun q => p.2 < q.2) = [] := by
            rw [List.filter_eq_nil_iff]
            intro x hx
            rcases List.mem_cons.mp hx with hxa | hxt
            · rw [hpa, hxa]
              simp
            · have h1 := hlea x hxt
              rw [hpa]
              simp only [decide_eq_true_eq]
              omega
          rw [hfil]
          simp
        · obtain ⟨hmem, hcount⟩ := (ih hsort2 hdist2 K p).mp hp2
          have hpa : p.2 < a.2 :=
            lt_of_le_of_ne (hlea p hmem) (fun h => hnea p hmem h.symm)
          refine ⟨List.mem_cons_of_mem a hmem, ?_⟩
          rw [List.filter_cons, if_pos (by simpa using hpa)]
          simpa using hcount
      · rintro ⟨hmem, hcount⟩
        rcases List.mem_cons.mp hmem with hpa | hmem2
        · rw [hpa]
          exact List.mem_cons_self _ _
        · have hpa : p.2 < a.2 :=
            lt_of_le_of_ne (hlea p hmem2) (fun h => hnea p hmem2 h.symm)
          rw [List.filter_cons, if_pos (by simpa using hpa)] at hcount
          simp only [List.length_cons] at hcount
          exact List.mem_cons_of_mem a
            ((ih hsort2 hdist2 K p).mpr ⟨hmem2, by omega⟩)

/-- Membership in the top DETAILED_LOGS ids of a distinct-value pool,
characterised without reference to the sort: id j makes the cut exactly
when it labels a pool entry beaten by fewer than DETAILED_LOGS other
entries. -/
theorem mem_topIds_iff (pool : List (Nat × Int)) (hd : distinctVals pool) (j : Nat) :
    j ∈ topIds pool ↔ ∃ p : Nat × Int, p ∈ pool ∧ p.1 = j ∧
      (pool.filter (fun q => p.2 < q.2)).length < DETAILED_LOGS := by
  have hperm := sortByValueDesc_perm pool
  have hsorted := sortByValueDesc_sorted pool
  have hdist2 : distinctVals (sortByValueDesc pool) :=
    distinctVals_of_perm hperm.symm hd
  unfold topIds
  constructor
  · intro hj
    rw [List.mem_map] at hj
    obtain ⟨p, hp, rfl⟩ := hj
    obtain ⟨hmem, hcount⟩ :=
      (mem_take_sorted_iff _ hsorted hdist2 DETAILED_LOGS p).mp hp
    refine ⟨p, hperm.mem_iff.mp hmem, rfl, ?_⟩
    rw [← (hperm.filter _).length_eq]
    exact hcount
  · rintro ⟨p, hp, rfl, hcount⟩
    rw [List.mem_map]
    refine ⟨p, ?_, rfl⟩
    refine (mem_take_sorted_iff _ hsorted hdist2 DETAILED_LOGS p).mpr
      ⟨hperm.mem_iff.mpr hp, ?_⟩
    rw [(hperm.filter _).length_eq]
    exact hcount

theorem mem_topIds_perm {pool1 pool2 : List (Nat × Int)} (h : pool1.Perm pool2)
    (hd : distinctVals pool1) (j : Nat) :
    j ∈ topIds pool1 ↔ j ∈ topIds pool2 := by
  have hd2 : distinctVals pool2 := distinctVals_of_perm h hd
  rw [mem_topIds_iff pool1 hd j, mem_topIds_iff pool2 hd2 j]
  constructor
  · rintro ⟨p, hp, rfl, hc⟩
    exact ⟨p, h.mem_iff.mp hp, rfl, by rwa [← (h.filter _).length_eq]⟩
  · rintro ⟨p, hp, rfl, hc⟩
    exact ⟨p, h.mem_iff.mpr hp, rfl, by rwa [(h.filter _).length_eq]⟩

/-- Adding a new pool entry with a fresh id can only shrink the set of
other ids in the top DETAILED_LOGS ranking. -/
theorem mem_topIds_cons {a : Nat × Int} {pool : List (Nat × Int)}
    (hd : distinctVals (a :: pool)) {j : Nat} (hj : j ≠ a.1) :
    j ∈ topIds (a :: pool) → j ∈ topIds pool := by
  intro h
  obtain ⟨p, hp, rfl, hc⟩ := (mem_topIds_iff _ hd _).mp h
  have hp2 : p ∈ pool := by
    rcases List.mem_cons.mp hp with rfl | hmem
    · exact absurd rfl hj
    · exact hmem
  refine (mem_topIds_iff pool hd.of_cons _).mpr ⟨p, hp2, rfl, ?_⟩
  have : ((a :: pool).filter (fun q => p.2 < q.2)).length ≥
      (pool.filter (fun q => p.2 < q.2)).length := by
    rw [List.filter_cons]
    split
    · simp
    · exact le_refl _
  omega

theorem keptEpisode_perm {p1 p2 g1 g2 : List (Nat × Int)} (hp : p1.Perm p2)
    (hg : g1.Perm g2) (hdp : distinctVals p1) (hdg : distinctVals g1)
    (m j : Nat) :
    keptEpisode p1 g1 m j ↔ keptEpisode p2 g2 m j := by
  unfold keptEpisode
  rw [mem_topIds_perm hp hdp j, mem_topIds_perm hg hdg j]

theorem keptEpisode_cons_mono {a b : Nat × Int} {poolm poolg : List (Nat × Int)}
    {n j : Nat} (ha : a.1 = n + 1) (hb : b.1 = n + 1)
    (hdm : distinctVals (a :: poolm)) (hdg : distinctVals (b :: poolg))
    (hj : j ≠ n + 1) :
    keptEpisode (a :: poolm) (b :: poolg) (n + 1) j → keptEpisode poolm poolg n j := by
  rintro (h | h | h)
  · exact Or.inl (mem_topIds_cons hdm (by omega) h)
  · exact Or.inr (Or.inl (mem_topIds_cons hdg (by omega) h))
  · exact Or.inr (Or.inr (by omega))

/-! ## Lemmas on one append to the action log -/

theorem stripEntry_num_agent (tree : LogTree) (m : Nat) (states : List Transition)
    (e : EpisodeEntry) : (stripEntry tree m states e).num_agent = e.num_agent := by
  unfold stripEntry
  split <;> rfl

theorem stripEntry_summary (tree : LogTree) (m : Nat) (states : List Transition)
    (e : EpisodeEntry) : summaryOf (stripEntry tree m states e) = summaryOf e := by
  unfold stripEntry
  split <;> rfl

theorem stripEntry_minerals_pair (tree : LogTree) (m : Nat) (states : List Transition)
    (e : EpisodeEntry) :
    ((stripEntry tree m states e).num_agent,
      (stripEntry tree m states e).total_collected_minerals)
      = (e.num_agent, e.total_collected_minerals) := by
  unfold stripEntry
  split <;> rfl

theorem stripEntry_gas_pair (tree : LogTree) (m : Nat) (states : List Transition)
    (e : EpisodeEntry) :
    ((stripEntry tree m states e).num_agent,
      (stripEntry tree m states e).total_collected_gas)
      = (e.num_agent, e.total_collected_gas) := by
  unfold stripEntry
  split <;> rfl

theorem stripEntry_eq_of_kept {tree : LogTree} {m : Nat} {states : List Transition}
    {e : EpisodeEntry} (h : keptOfAppend tree m states e.num_agent) :
    stripEntry tree m states e = e := by
  unfold stripEntry
  rw [if_pos h]

theorem stripEntry_actions_of_not_kept {tree : LogTree} {m : Nat}
    {states : List Transition} {e : EpisodeEntry}
    (h : ¬ keptOfAppend tree m states e.num_agent) :
    (stripEntry tree m states e).actions = [] := by
  unfold stripEntry
  rw [if_neg h]

theorem buildTrace_ne_nil {states : List Transition} {acts : List ReplayAction}
    (hs : states ≠ []) (ha : acts ≠ []) : buildTrace states acts ≠ [] := by
  cases states with
  | nil => exact absurd rfl hs
  | cons s ss =>
    cases acts with
    | nil => exact absurd rfl ha
    | cons a as => simp [buildTrace]

theorem newLogEntry_actions_of_kept {tree : LogTree} {m num_episode : Nat}
    {reward pl vl : ℚ} {states : List Transition} {acts : List ReplayAction}
    (h : keptOfAppend tree m states m) :
    (newLogEntry tree m num_episode reward pl vl states acts).actions
      = buildTrace states acts := by
  unfold newLogEntry
  simp [h]

theorem newLogEntry_actions_of_not_kept {tree : LogTree} {m num_episode : Nat}
    {reward pl vl : ℚ} {states : List Transition} {acts : List ReplayAction}
    (h : ¬ keptOfAppend tree m states m) :
    (newLogEntry tree m num_episode reward pl vl states acts).actions = [] := by
  unfold newLogEntry
  simp [h]

theorem save_log_entries_map {β : Type} (tree : LogTree) (m num_episode : Nat)
    (reward pl vl : ℚ) (states : List Transition) (acts : List ReplayAction)
    (f : EpisodeEntry → β) (hf : ∀ e, f (stripEntry tree m states e) = f e) :
    (save_action_log tree m num_episode reward pl vl states acts).entries.map f
      = tree.entries.map f
        ++ [f (newLogEntry tree m num_episode reward pl vl states acts)] := by
  show ((tree.entries ++ [newLogEntry tree m num_episode reward pl vl states acts]).map
      (stripEntry tree m states)).map f = _
  rw [List.map_map]
  have h2 : (tree.entries
        ++ [newLogEntry tree m num_episode reward pl vl states acts]).map
        (f ∘ stripEntry tree m states)
      = (tree.entries
        ++ [newLogEntry tree m num_episode reward pl vl states acts]).map f :=
    List.map_congr_left (fun e _ => hf e)
  rw [h2, List.map_append]
  rfl

/-! ## Claim C6 -/

/-- C6: after an append to a worker action log store in a reachable
document state (local episode ids 1..n in order, the new episode having
id m = n + 1, pairwise distinct metric values as in the testable
retention property, non-empty episode buffers, and every stored episode
currently retaining its trace exactly when the previous kept set says
so), the set of episodes retaining a detailed action trace equals the
kept set (top DETAILED_LOGS by minerals) ∪ (top DETAILED_LOGS by gas) ∪
(the DETAILED_LOGS most recent episode ids); every episode element
outside the kept set has an empty trace while all its summary
attributes survive unchanged; the newly appended entry keeps its trace
exactly when its own id is kept; the id sequence stays 1..m and the
trace/kept invariant is re-established for the resulting document. -/
theorem c6_retention (tree : LogTree) (m num_episode : Nat)
    (reward policy_loss value_loss : ℚ) (replay_states : List Transition)
    (replay_actions : List ReplayAction)
    (hm : m = tree.entries.length + 1)
    (hids : tree.entries.map (·.num_agent) = List.range' 1 tree.entries.length)
    (hdm : distinctVals (mineralsPool tree m (logTotalMinerals replay_states)))
    (hdg : distinctVals (gasPool tree m (logTotalGas replay_states)))
    (hinv : ∀ e ∈ tree.entries, (e.actions ≠ [] ↔
        keptEpisode (entriesMineralsPool tree) (entriesGasPool tree)
          tree.entries.length e.num_agent))
    (hstates : replay_states ≠ []) (hacts : replay_actions ≠ []) :
    (∀ j, 1 ≤ j → j ≤ m →
      ((∃ e ∈ (save_action_log tree m num_episode reward policy_loss value_loss
          replay_states replay_actions).entries, e.num_agent = j ∧ e.actions ≠ [])
        ↔ keptOfAppend tree m replay_states j))
    ∧ (save_action_log tree m num_episode reward policy_loss value_loss
        replay_states replay_actions).entries.map summaryOf
        = tree.entries.map summaryOf
          ++ [(num_episode, m, logTotalMinerals replay_states,
              logTotalGas replay_states, policy_loss, value_loss, reward)]
    ∧ (∀ e ∈ (save_action_log tree m num_episode reward policy_loss value_loss
        replay_states replay_actions).entries,
        ¬ keptOfAppend tree m replay_states e.num_agent → e.actions = [])
    ∧ (∃ elast, (save_action_log tree m num_episode reward policy_loss value_loss
        replay_states replay_actions).entries.getLast? = some elast
        ∧ elast.num_agent = m
        ∧ (elast.actions ≠ [] ↔ keptOfAppend tree m replay_states m))
    ∧ (save_action_log tree m num_episode reward policy_loss value_loss
        replay_states replay_actions).entries.map (·.num_agent) = List.range' 1 m
    ∧ (∀ e ∈ (save_action_log tree m num_episode reward policy_loss value_loss
        replay_states replay_actions).entries,
        (e.actions ≠ [] ↔
          keptEpisode
            (entriesMineralsPool (save_action_log tree m num_episode reward
              policy_loss value_loss replay_states replay_actions))
            (entriesGasPool (save_action_log tree m num_episode reward
              policy_loss value_loss replay_states replay_actions))
            m e.num_agent)) := by
  subst hm
  have hbound : ∀ e ∈ tree.entries,
      1 ≤ e.num_agent ∧ e.num_agent ≤ tree.entries.length := by
    intro e he
    have h1 : e.num_agent ∈ tree.entries.map (·.num_agent) := List.mem_map_of_mem _ he
    rw [hids] at h1
    have h2 := List.mem_range'_1.mp h1
    omega
  have hmono : ∀ j, j ≠ tree.entries.length + 1 →
      keptOfAppend tree (tree.entries.length + 1) replay_states j →
      keptEpisode (entriesMineralsPool tree) (entriesGasPool tree)
        tree.entries.length j := by
    intro j hj hk
    exact keptEpisode_cons_mono rfl rfl hdm hdg hj hk
  have hκtrue : ∀ e ∈ tree.entries,
      keptOfAppend tree (tree.entries.length + 1) replay_states e.num_agent →
      e.actions ≠ [] := by
    intro e he hk
    have hb := hbound e he
    exact (hinv e he).mpr (hmono e.num_agent (by omega) hk)
  have hstrip_old : ∀ e ∈ tree.entries,
      ((stripEntry tree (tree.entries.length + 1) replay_states e).actions ≠ [] ↔
        keptOfAppend tree (tree.entries.length + 1) replay_states e.num_agent) := by
    intro e he
    by_cases hk : keptOfAppend tree (tree.entries.length + 1) replay_states e.num_agent
    · rw [stripEntry_eq_of_kept hk]
      simp only [hk, iff_true]
      exact hκtrue e he hk
    · rw [stripEntry_actions_of_not_kept hk]
      simp [hk]
  have hnew1 : (stripEntry tree (tree.entries.length + 1) replay_states
      (newLogEntry tree (tree.entries.length + 1) num_episode reward policy_loss
        value_loss replay_states replay_actions)).num_agent
      = tree.entries.length + 1 := by
    rw [stripEntry_num_agent]
    rfl
  have hnew2 : ((stripEntry tree (tree.entries.length + 1) replay_states
      (newLogEntry tree (tree.entries.length + 1) num_episode reward policy_loss
        value_loss replay_states replay_actions)).actions ≠ [] ↔
      keptOfAppend tree (tree.entries.length + 1) replay_states
        (tree.entries.length + 1)) := by
    by_cases hk : keptOfAppend tree (tree.entries.length + 1) replay_states
        (tree.entries.length + 1)
    · rw [stripEntry_eq_of_kept hk, newLogEntry_actions_of_kept hk]
      simp only [hk, iff_true]
      exact buildTrace_ne_nil hstates hacts
    · rw [stripEntry_actions_of_not_kept hk]
      simp [hk]
  have hall : ∀ e ∈ (save_action_log tree (tree.entries.length + 1) num_episode
      reward policy_loss value_loss replay_states replay_actions).entries,
      (e.actions ≠ [] ↔
        keptOfAppend tree (tree.entries.length + 1) replay_states e.num_agent) := by
    intro e he
    obtain ⟨e0, he0, heq⟩ := List.mem_map.mp he
    rcases List.mem_append.mp he0 with h0 | h0
    · rw [← heq, stripEntry_num_agent]
      exact hstrip_old e0 h0
    · have h1 : e0 = newLogEntry tree (tree.entries.length + 1) num_episode reward
          policy_loss value_loss replay_states replay_actions := by
        simpa using h0
      rw [← heq, h1, stripEntry_num_agent]
      exact hnew2
  refine ⟨?_, ?_, ?_, ?_, ?_, ?_⟩
  · intro j h1 hj
    constructor
    · rintro ⟨e, he, hid, hact⟩
      have h2 := (hall e he).mp hact
      rwa [hid] at h2
    · intro hk
      by_cases hj2 : j = tree.entries.length + 1
      · subst hj2
        refine ⟨stripEntry tree (tree.entries.length + 1) replay_states
          (newLogEntry tree (tree.entries.length + 1) num_episode reward policy_loss
            value_loss replay_states replay_actions), ?_, hnew1, hnew2.mpr hk⟩
        exact List.mem_map_of_mem _ (List.mem_append_right _ (List.mem_singleton_self _))
      · have hjmem : j ∈ tree.entries.map (·.num_agent) := by
          rw [hids]
          exact List.mem_range'_1.mpr ⟨h1, by omega⟩
        obtain ⟨e0, he0, hid0⟩ := List.mem_map.mp hjmem
        refine ⟨stripEntry tree (tree.entries.length + 1) replay_states e0, ?_, ?_, ?_⟩
        · exact List.mem_map_of_mem _ (List.mem_append_left _ he0)
        · rw [stripEntry_num_agent]
          exact hid0
        · exact (hstrip_old e0 he0).mpr (by rwa [hid0])
  · rw [save_log_entries_map tree (tree.entries.length + 1) num_episode reward
      policy_loss value_loss replay_states replay_actions summaryOf
      (stripEntry_summary tree (tree.entries.length + 1) replay_states)]
    rfl
  · intro e he hk
    by_contra hact
    exact hk ((hall e he).mp hact)
  · refine ⟨stripEntry tree (tree.entries.length + 1) replay_states
      (newLogEntry tree (tree.entries.length + 1) num_episode reward policy_loss
        value_loss replay_states replay_actions), ?_, hnew1, hnew2⟩
    show ((tree.entries ++ [newLogEntry tree (tree.entries.length + 1) num_episode
        reward policy_loss value_loss replay_states replay_actions]).map
        (stripEntry tree (tree.entries.length + 1) replay_states)).getLast? = _
    rw [List.map_append]
    exact List.getLast?_concat _
  · rw [save_log_entries_map tree (tree.entries.length + 1) num_episode reward
      policy_loss value_loss replay_states replay_actions (·.num_agent)
      (stripEntry_num_agent tree (tree.entries.length + 1) replay_states), hids]
    have h3 : (1 : Nat) + 1 * tree.entries.length = tree.entries.length + 1 := by ring
    rw [List.range'_concat, h3]
    rfl
  · have hpoolm : (entriesMineralsPool (save_action_log tree
        (tree.entries.length + 1) num_episode reward policy_loss value_loss
        replay_states replay_actions)).Perm
        (mineralsPool tree (tree.entries.length + 1)
          (logTotalMinerals replay_states)) := by
      show ((save_action_log tree (tree.entries.length + 1) num_episode reward
          policy_loss value_loss replay_states replay_actions).entries.map
          (fun e => (e.num_agent, e.total_collected_minerals))).Perm _
      rw [save_log_entries_map tree (tree.entries.length + 1) num_episode reward
        policy_loss value_loss replay_states replay_actions
        (fun e => (e.num_agent, e.total_collected_minerals))
        (stripEntry_minerals_pair tree (tree.entries.length + 1) replay_states)]
      exact List.perm_append_singleton _ _
    have hpoolg : (entriesGasPool (save_action_log tree
        (tree.entries.length + 1) num_episode reward policy_loss value_loss
        replay_states replay_actions)).Perm
        (gasPool tree (tree.entries.length + 1) (logTotalGas replay_states)) := by
      show ((save_action_log tree (tree.entries.length + 1) num_episode reward
          policy_loss value_loss replay_states replay_actions).entries.map
          (fun e => (e.num_agent, e.total_collected_gas))).Perm _
      rw [save_log_entries_map tree (tree.entries.length + 1) num_episode reward
        policy_loss value_loss replay_states replay_actions
        (fun e => (e.num_agent, e.total_collected_gas))
        (stripEntry_gas_pair tree (tree.entries.length + 1) replay_states)]
      exact List.perm_append_singleton _ _
    intro e he
    rw [keptEpisode_perm hpoolm hpoolg
      (distinctVals_of_perm hpoolm.symm hdm) (distinctVals_of_perm hpoolg.symm hdg)
      (tree.entries.length + 1) e.num_agent]
    exact hall e he

/-- Witness for C6: one retained episode in the document, a second
episode appended, all hypotheses checked by evaluation; the summary
rows of the resulting document are the old row followed by the new
one. -/
theorem c6_witness :
    (save_action_log ⟨[⟨1, 1, 5, 7, 0, 0, 0, [⟨0, 0, 0, false, false, 0, 0⟩]⟩]⟩ 2 9
        0 0 0 [⟨0, 0, 1, 3, 4, true⟩] [⟨0, (0, 0), [], false, false⟩]).entries.map
        summaryOf
      = ([⟨1, 1, 5, 7, 0, 0, 0, [⟨0, 0, 0, false, false, 0, 0⟩]⟩]
          : List EpisodeEntry).map summaryOf
        ++ [(9, 2, logTotalMinerals [⟨0, 0, 1, 3, 4, true⟩],
            logTotalGas [⟨0, 0, 1, 3, 4, true⟩], 0, 0, 0)] :=
  (c6_retention ⟨[⟨1, 1, 5, 7, 0, 0, 0, [⟨0, 0, 0, false, false, 0, 0⟩]⟩]⟩ 2 9 0 0 0
    [⟨0, 0, 1, 3, 4, true⟩] [⟨0, (0, 0), [], false, false⟩] rfl (by decide) (by decide)
    (by decide) (by decide) (List.cons_ne_nil _ _) (List.cons_ne_nil _ _)).2.1

/-- Witness for C5 amended at a concrete 21-element array. -/
theorem c5_witness :
    (array_split (List.range 21) NUM_BATCHES).length = NUM_BATCHES :=
  (c5_amended (List.range 21) ⟨fun _ _ => 0, fun _ => (0, 0)⟩ (fun _ => false) 0
    ⟨[], []⟩).2.1
